import Mathlib

/-!
Verification development for the jf-http-request library (src/index.js).

The JavaScript source is shallowly embedded into Lean: each function of
src/index.js becomes an executable Lean definition over an explicit model of
the JavaScript values it manipulates.  The platform collaborators that the
library calls (the legacy url.parse, the JSON.parse of the runtime, the
jf-http-headers name normalizer, the crypto SHA-256 digest) are modelled
explicitly where their behaviour matters, or passed as parameters where the
library treats them as black boxes.

Mutable state (the process-wide cache object and the current time) is made
explicit: every cache operation takes the store and the current clock value
as arguments and returns the updated store.
-/

/-! ## JavaScript value model

Bodies and decoded JSON payloads are JavaScript values.  The constructors
mirror the dynamic types that src/index.js distinguishes via typeof. -/

inductive JsVal where
  | null
  | bool (b : Bool)
  | num (n : Int)
  | str (s : String)
  | arr (xs : List JsVal)
  | obj (fields : List (String × JsVal))
deriving Repr

/-- typeof for the embedded JavaScript values: null, arrays and plain objects
all report "object", exactly as in JavaScript. -/
def jsTypeof : JsVal → String
  | .str _ => "string"
  | .num _ => "number"
  | .bool _ => "boolean"
  | .null => "object"
  | .arr _ => "object"
  | .obj _ => "object"

/-- Truthiness of an optional string: JavaScript treats undefined, null and
the empty string as falsy; every other string is truthy. -/
def truthyOpt (v : Option String) : Bool :=
  match v with
  | none => false
  | some s => !(s == "")

/-! ## Association-list helpers

JavaScript objects used as string-keyed maps (the cache table, header maps,
heap objects) are embedded as association lists with unique keys.  Reading a
key returns the first binding; writing a key replaces any existing binding. -/

def assocGet {κ α : Type} [DecidableEq κ] (l : List (κ × α)) (k : κ) : Option α :=
  (l.find? (fun p => decide (p.1 = k))).map (·.2)

def assocSet {κ α : Type} [DecidableEq κ] (l : List (κ × α)) (k : κ) (v : α) : List (κ × α) :=
  l.filter (fun p => !decide (p.1 = k)) ++ [(k, v)]

theorem assocGet_set {κ α : Type} [DecidableEq κ] (l : List (κ × α)) (k : κ) (v : α) :
    assocGet (assocSet l k v) k = some v := by
  have h1 : (l.filter (fun p => !decide (p.1 = k))).find? (fun p => decide (p.1 = k))
      = none := by
    rw [List.find?_eq_none]
    intro p hp
    simpa using (List.mem_filter.mp hp).2
  simp [assocGet, assocSet, List.find?_append, h1, List.find?]

theorem assocGet_filter_set {κ α : Type} [DecidableEq κ] (pred : α → Bool)
    (l : List (κ × α)) (k : κ) (v : α) :
    assocGet ((assocSet l k v).filter (fun p => pred p.2)) k
      = if pred v then some v else none := by
  have h1 : ((l.filter (fun p => !decide (p.1 = k))).filter
        (fun p => pred p.2)).find? (fun p => decide (p.1 = k)) = none := by
    rw [List.find?_eq_none]
    intro p hp
    simpa using (List.mem_filter.mp (List.mem_filter.mp hp).1).2
  by_cases hv : pred v <;>
    simp [assocGet, assocSet, List.filter_append, List.find?_append, h1, List.find?, hv]

theorem assocGet_map_const_fn {κ α : Type} [DecidableEq κ]
    (names : List κ) (g : κ → α) (k : κ) (h : k ∈ names) :
    assocGet (names.map (fun n => (n, g n))) k = some (g k) := by
  induction names with
  | nil => cases h
  | cons n names ih =>
    by_cases hn : n = k
    · subst hn; simp [assocGet, List.find?]
    · rcases List.mem_cons.mp h with h1 | h2
      · exact absurd h1.symm hn
      · simpa [assocGet, List.find?, hn] using ih h2

/-! ## Header maps

Headers live in a name-to-value map.  src/index.js routes all header reads
and writes through the jf-http-headers collaborator, whose job is to
normalize header-name capitalization; the embedding models that service by
comparing names case-insensitively. -/

abbrev Headers : Type := List (String × String)

/-- ASCII lower-casing of a header name (the capitalization-insensitive
matching the jf-http-headers collaborator provides). -/
def lowerChar (c : Char) : Char :=
  if 'A' ≤ c ∧ c ≤ 'Z' then Char.ofNat (c.toNat + 32) else c

def lowerName (s : String) : String := String.mk (s.data.map lowerChar)

/-- Case-insensitive header read, modelling jfHttpHeaders.get. -/
def hGet (hs : Headers) (name : String) : Option String :=
  (List.find? (fun p => lowerName p.1 == lowerName name) hs).map (·.2)

/-- Case-insensitive header write, modelling jfHttpHeaders.set. -/
def hSet (hs : Headers) (name : String) (v : String) : Headers :=
  (List.filter (fun p => !(lowerName p.1 == lowerName name)) hs) ++ [(name, v)]

/-! ## Request options

The mutable options record that jfHttpRequest normalizes in place.  The
string-valued fields are exactly the ones that the legacy url.parse object
carries (and that Object.assign therefore merges into the options), plus the
library-specific fields headers, body, cacheTime and requestType. -/

/-- The requestType option as a JavaScript value: either a string or a
function value.  For a function value the three booleans record the shape
information that isOk's companion isPromise inspects: whether the prototype
is an object and whether prototype.catch and prototype.then are functions. -/
inductive ReqType where
  | str (s : String)
  | func (protoIsObject protoCatchIsFn protoThenIsFn : Bool)
deriving Repr

structure Options where
  url : Option String := none
  pathname : Option String := none
  path : Option String := none
  host : Option String := none
  hostname : Option String := none
  protocol : Option String := none
  port : Option String := none
  auth : Option String := none
  search : Option String := none
  query : Option String := none
  href : Option String := none
  hash : Option String := none
  slashes : Option Bool := none
  method : Option String := none
  headers : Option Headers := none
  body : Option JsVal := none
  cacheTime : Option Int := none
  requestType : Option ReqType := none

/-- The result object of the legacy url.parse platform function.  Fields the
URL does not carry are null, which the legacy parser represents as own
properties, so Object.assign copies them into the options as well. -/
structure ParsedUrl where
  protocol : Option String := none
  slashes : Option Bool := none
  auth : Option String := none
  host : Option String := none
  port : Option String := none
  hostname : Option String := none
  hash : Option String := none
  search : Option String := none
  query : Option String := none
  pathname : Option String := none
  path : Option String := none
  href : Option String := none

/-! ## checkHeaders (src/index.js lines 76-109) -/

/-- The media-type portion of a content type: everything before the first
semicolon (the split-on-semicolon-then-shift of the source). -/
def takeUntilSemi : List Char → List Char
  | [] => []
  | c :: rest => if c = ';' then [] else c :: takeUntilSemi rest

def splitShift (s : String) : String := String.mk (takeUntilSemi s.data)

/-- checkHeaders: if a headers field is present, infer Content-Type from the
body when none is set (string bodies starting with a lower-than sign get
text/html, other strings text/plain, object-typed bodies application/json),
then default Accept to the media-type part of the Content-Type. -/
def checkHeaders (o : Options) : Options :=
  match o.headers with
  | none => o
  | some hs0 =>
    let hs1 :=
      if truthyOpt (hGet hs0 "Content-Type") = false ∧ o.body.isSome then
        match o.body with
        | some (.str s) =>
          hSet hs0 "Content-Type"
            (if s.data.head? = some '<' then "text/html; charset=utf-8"
             else "text/plain; charset=utf-8")
        | some (.num _) => hs0
        | some (.bool _) => hs0
        -- null, arrays and plain objects all have typeof "object"
        | some _ => hSet hs0 "Content-Type" "application/json; charset=utf-8"
        | none => hs0
      else hs0
    let hs2 :=
      if truthyOpt (hGet hs1 "Accept") then hs1
      else
        match hGet hs1 "Content-Type" with
        | some ct =>
          if ct == "" then hs1
          else hSet hs1 "Accept" (splitShift ct)
        | none => hs1
    { o with headers := some hs2 }

/-! ## checkUrl (src/index.js lines 115-146) -/

/-- The url-resolution block of checkUrl: when the url option is a string it
is parsed, the pathname override (if truthy) or the query string is folded
into the parsed path, the parsed fields are merged into the options
(Object.assign overwrites every url.parse field, null ones included), and
the url field is removed.  JavaScript string coercion makes a null path
render as "null" when the query is appended. -/
def resolveUrl (parse : String → ParsedUrl) (o : Options) : Options :=
  match o.url with
  | none => o
  | some s =>
    let u := parse s
    let step :
        ParsedUrl × Options :=
      if truthyOpt o.pathname then
        ({ u with path := o.pathname }, { o with pathname := none })
      else if truthyOpt u.query then
        ({ u with path := some ((u.path.getD "null") ++ "?" ++ (u.query.getD "")) }, o)
      else (u, o)
    let u2 := step.1
    let o2 := step.2
    { o2 with
      protocol := u2.protocol
      slashes := u2.slashes
      auth := u2.auth
      host := u2.host
      port := u2.port
      hostname := u2.hostname
      hash := u2.hash
      search := u2.search
      query := u2.query
      pathname := u2.pathname
      path := u2.path
      href := u2.href
      url := none }

/-- The host-aliasing block of checkUrl: a truthy legacy host field feeds
hostname when hostname is falsy, then host is deleted. -/
def applyHostAlias (o : Options) : Options :=
  if truthyOpt o.host then
    let o1 := if truthyOpt o.hostname then o else { o with hostname := o.host }
    { o1 with host := none }
  else o

inductive ReqError where
  | wrongOptions
  | wrongHostname
deriving Repr, DecidableEq

/-- checkUrl: resolve a string url, apply the host alias, then fail with a
TypeError when no truthy hostname remains. -/
def checkUrl (parse : String → ParsedUrl) (o : Options) : Except ReqError Options :=
  let o1 := applyHostAlias (resolveUrl parse o)
  if truthyOpt o1.hostname then .ok o1 else .error .wrongHostname

/-! ## Dispatch on requestType (src/index.js lines 254-260 and 359-395) -/

/-- isPromise: a function whose prototype is an object carrying catch and
then functions. -/
def isPromise : ReqType → Bool
  | .func po pc pt => po && pc && pt
  | _ => false

inductive DeliveryMode where
  | callback
  | events
  | promise
deriving Repr, DecidableEq

/-- The dispatch performed by jfHttpRequest on the consumed requestType: a
function value goes to promise mode when isPromise accepts it and to
callback mode otherwise; every non-function value (strings included) falls
through to event mode. -/
def selectMode (t : Option ReqType) : DeliveryMode :=
  match t with
  | some (.func po pc pt) =>
    if isPromise (.func po pc pt) then .promise else .callback
  | _ => .events

inductive EntryInput where
  | str (s : String)
  | opts (o : Options)

/-- The normalization and dispatch pipeline shared by every truthy entry
input: checkUrl, then checkHeaders, then consume requestType and select the
delivery mode.  The options handed to the executor no longer carry the
requestType field. -/
def entryPipeline (parse : String → ParsedUrl) (o : Options) :
    Except ReqError (Options × DeliveryMode) :=
  match checkUrl parse o with
  | .error e => .error e
  | .ok o1 =>
    let o2 := checkHeaders o1
    let t := o2.requestType
    .ok ({ o2 with requestType := none }, selectMode t)

/-- jfHttpRequest (the module entry point): a falsy argument (no options at
all, or an empty url string) raises TypeError Wrong options synchronously; a
bare string becomes an options record with just a url field; otherwise the
record is normalized and dispatched. -/
def jfHttpRequest (parse : String → ParsedUrl) (input : Option EntryInput) :
    Except ReqError (Options × DeliveryMode) :=
  match input with
  | none => .error .wrongOptions
  | some (.str s) =>
    if s == "" then .error .wrongOptions
    else entryPipeline parse { url := some s }
  | some (.opts o) => entryPipeline parse o

/-! ## SHA-256 (model of the platform crypto module used by buildHash)

src/index.js builds cache keys with crypto.createHash of sha256 and a hex
digest.  The platform primitive is reimplemented here over lists of bytes
(naturals below 256) with 32-bit words represented as naturals reduced
modulo 2^32. -/

def rotr32 (x n : Nat) : Nat := ((x >>> n) ||| (x <<< (32 - n))) % 4294967296

def shr32 (x n : Nat) : Nat := x >>> n

def add32 (a b : Nat) : Nat := (a + b) % 4294967296

def xor3 (a b c : Nat) : Nat := Nat.xor (Nat.xor a b) c

def bigSigma0 (x : Nat) : Nat := xor3 (rotr32 x 2) (rotr32 x 13) (rotr32 x 22)

def bigSigma1 (x : Nat) : Nat := xor3 (rotr32 x 6) (rotr32 x 11) (rotr32 x 25)

def smallSigma0 (x : Nat) : Nat := xor3 (rotr32 x 7) (rotr32 x 18) (shr32 x 3)

def smallSigma1 (x : Nat) : Nat := xor3 (rotr32 x 17) (rotr32 x 19) (shr32 x 10)

def chFn (x y z : Nat) : Nat := Nat.xor (Nat.land x y) (Nat.land (4294967295 - x) z)

def majFn (x y z : Nat) : Nat := xor3 (Nat.land x y) (Nat.land x z) (Nat.land y z)

def sha256K : List Nat :=
  [1116352408, 1899447441, 3049323471, 3921009573, 961987163,
   1508970993, 2453635748, 2870763221, 3624381080, 310598401,
   607225278, 1426881987, 1925078388, 2162078206, 2614888103,
   3248222580, 3835390401, 4022224774, 264347078, 604807628,
   770255983, 1249150122, 1555081692, 1996064986, 2554220882,
   2821834349, 2952996808, 3210313671, 3336571891, 3584528711,
   113926993, 338241895, 666307205, 773529912, 1294757372,
   1396182291, 1695183700, 1986661051, 2177026350, 2456956037,
   2730485921, 2820302411, 3259730800, 3345764771, 3516065817,
   3600352804, 4094571909, 275423344, 430227734, 506948616,
   659060556, 883997877, 958139571, 1322822218, 1537002063,
   1747873779, 1955562222, 2024104815, 2227730452, 2361852424,
   2428436474, 2756734187, 3204031479, 3329325298]

def sha256H0 : List Nat :=
  [1779033703, 3144134277, 1013904242, 2773480762, 1359893119,
   2600822924, 528734635, 1541459225]

/-- Big-endian byte rendering of a natural over a fixed width. -/
def bytesBE (width v : Nat) : List Nat :=
  (List.range width).map (fun i => (v >>> ((width - 1 - i) * 8)) % 256)

/-- Group a byte list into big-endian 32-bit words. -/
def toWordsBE : List Nat → List Nat
  | b0 :: b1 :: b2 :: b3 :: rest =>
    (((b0 * 256 + b1) * 256 + b2) * 256 + b3) :: toWordsBE rest
  | _ => []

/-- SHA-256 padding: a 0x80 byte, zeros up to 56 modulo 64, then the bit
length over eight big-endian bytes. -/
def padMessage (msg : List Nat) : List Nat :=
  let len := msg.length
  msg ++ [0x80] ++ List.replicate ((119 - (len % 64)) % 64) 0 ++ bytesBE 8 (len * 8)

/-- Split a word list into 16-word blocks. -/
def chunksOf16 (l : List Nat) : List (List Nat) :=
  match l with
  | [] => []
  | x :: rest => ((x :: rest).take 16) :: chunksOf16 (rest.drop 15)
termination_by l.length
decreasing_by
  simp only [List.length_drop]
  simp
  omega

/-- Extend a 16-word block to the 64-word message schedule. -/
def schedule (w16 : List Nat) : List Nat :=
  (List.range 48).foldl
    (fun w _ =>
      let t := w.length
      w ++ [add32 (add32 (smallSigma1 (w.getD (t - 2) 0)) (w.getD (t - 7) 0))
              (add32 (smallSigma0 (w.getD (t - 15) 0)) (w.getD (t - 16) 0))])
    w16

/-- One SHA-256 compression round over an eight-word state. -/
def compress (hstate : List Nat) (w : List Nat) : List Nat :=
  let init := (hstate.getD 0 0, hstate.getD 1 0, hstate.getD 2 0, hstate.getD 3 0,
               hstate.getD 4 0, hstate.getD 5 0, hstate.getD 6 0, hstate.getD 7 0)
  let fin := (List.range 64).foldl
    (fun (st : Nat × Nat × Nat × Nat × Nat × Nat × Nat × Nat) i =>
      let (a, b, c, d, e, f, g, h) := st
      let t1 := add32 h (add32 (bigSigma1 e)
        (add32 (chFn e f g) (add32 (sha256K.getD i 0) (w.getD i 0))))
      let t2 := add32 (bigSigma0 a) (majFn a b c)
      (add32 t1 t2, a, b, c, add32 d t1, e, f, g))
    init
  let (a, b, c, d, e, f, g, h) := fin
  [add32 (hstate.getD 0 0) a, add32 (hstate.getD 1 0) b,
   add32 (hstate.getD 2 0) c, add32 (hstate.getD 3 0) d,
   add32 (hstate.getD 4 0) e, add32 (hstate.getD 5 0) f,
   add32 (hstate.getD 6 0) g, add32 (hstate.getD 7 0) h]

def sha256Words (msg : List Nat) : List Nat :=
  (chunksOf16 (toWordsBE (padMessage msg))).foldl
    (fun hs blk => compress hs (schedule blk)) sha256H0

def hexDigit (n : Nat) : Char :=
  if n < 10 then Char.ofNat (48 + n) else Char.ofNat (87 + n)

def wordHex (w : Nat) : String :=
  String.mk ((List.range 8).map (fun i => hexDigit ((w >>> ((7 - i) * 4)) % 16)))

def sha256Hex (s : String) : String :=
  String.join ((sha256Words (s.toUTF8.toList.map UInt8.toNat)).map wordHex)

/-- buildHash (src/index.js lines 66-69): hex SHA-256 digest of the given
content string. -/
def buildHash (content : String) : String := sha256Hex content

/-! ## JSON serialization (model of the platform JSON.stringify)

doRequest serializes the whole options record to build the cache key.  The
embedding serializes the present fields of the record in declaration order;
absent fields and function values are skipped, as JSON.stringify does for
undefined and function properties. -/

def escChar (c : Char) : String :=
  if c = '"' then "\\\""
  else if c = '\\' then "\\\\"
  else if c = '\n' then "\\n"
  else if c = '\r' then "\\r"
  else if c = '\t' then "\\t"
  else String.singleton c

def jsonEscape (s : String) : String :=
  "\"" ++ String.join (s.data.map escChar) ++ "\""

mutual

def jsValStringify : JsVal → String
  | .null => "null"
  | .bool b => if b then "true" else "false"
  | .num n => toString n
  | .str s => jsonEscape s
  | .arr xs => "[" ++ jsArrFields xs ++ "]"
  | .obj fs => "\x7b" ++ jsObjFields fs ++ "\x7d"

def jsArrFields : List JsVal → String
  | [] => ""
  | [x] => jsValStringify x
  | x :: y :: xs => jsValStringify x ++ "," ++ jsArrFields (y :: xs)

def jsObjFields : List (String × JsVal) → String
  | [] => ""
  | [(k, v)] => jsonEscape k ++ ":" ++ jsValStringify v
  | (k, v) :: q :: fs =>
    jsonEscape k ++ ":" ++ jsValStringify v ++ "," ++ jsObjFields (q :: fs)

end

def jsonField (name : String) (v : Option String) : Option String :=
  v.map (fun s => jsonEscape name ++ ":" ++ jsonEscape s)

def joinComma : List String → String
  | [] => ""
  | [x] => x
  | x :: y :: xs => x ++ "," ++ joinComma (y :: xs)

/-- JSON.stringify applied to an options record. -/
def jsonStringify (o : Options) : String :=
  let fields : List (Option String) :=
    [jsonField "url" o.url,
     jsonField "pathname" o.pathname,
     jsonField "path" o.path,
     jsonField "host" o.host,
     jsonField "hostname" o.hostname,
     jsonField "protocol" o.protocol,
     jsonField "port" o.port,
     jsonField "auth" o.auth,
     jsonField "search" o.search,
     jsonField "query" o.query,
     jsonField "href" o.href,
     jsonField "hash" o.hash,
     o.slashes.map (fun b =>
       jsonEscape "slashes" ++ ":" ++ (if b then "true" else "false")),
     jsonField "method" o.method,
     o.headers.map (fun hs =>
       jsonEscape "headers" ++ ":" ++
         jsValStringify (.obj (hs.map (fun p => (p.1, JsVal.str p.2))))),
     o.body.map (fun b => jsonEscape "body" ++ ":" ++ jsValStringify b),
     o.cacheTime.map (fun t => jsonEscape "cacheTime" ++ ":" ++ toString t),
     match o.requestType with
     | some (.str s) => some (jsonEscape "requestType" ++ ":" ++ jsonEscape s)
     | _ => none]
  "\x7b" ++ joinComma (fields.filterMap id) ++ "\x7d"


/-! ## Responses and the serialized snapshot

src/index.js keeps a fixed list of response properties (the properties
constant, lines 27-40) and serializes exactly those into the cache.  The
embedding types a response as that fixed projection plus the remaining own
properties of the live message object (socket references and the like),
which the projection discards. -/

structure Snapshot where
  body : JsVal
  headers : List (String × String)
  httpVersion : Option String
  httpVersionMajor : Option Nat
  httpVersionMinor : Option Nat
  method : Option String
  rawHeaders : List String
  rawTrailers : List String
  statusCode : Option Nat
  statusMessage : Option String
  trailers : List (String × String)
  url : Option String

structure Response extends Snapshot where
  extra : List (String × JsVal)

/-- The properties constant of src/index.js: names of the response fields
that are serialized into the cache. -/
def properties : List String :=
  ["body", "headers", "httpVersion", "httpVersionMajor", "httpVersionMinor",
   "method", "rawHeaders", "rawTrailers", "statusCode", "statusMessage",
   "trailers", "url"]

/-- The serialization loop of addToCache: copy each listed property of the
response, dropping everything else. -/
def project (r : Response) : Snapshot := r.toSnapshot

/-- The own properties of a freshly constructed http.IncomingMessage before
fromCache copies the serialized fields onto it; none of them belong to the
projected field set. -/
def freshMessageExtra : List (String × JsVal) := []

/-- The restore loop of fromCache: build a new HttpMessage and copy each
listed property from the serialized data onto it. -/
def reconstruct (s : Snapshot) : Response :=
  { toSnapshot := s, extra := freshMessageExtra }

/-! ## The cache store (src/index.js lines 15, 48-58, 225-237, 264-276) -/

structure CacheEntry where
  data : Snapshot
  time : Int

abbrev CacheStore : Type := List (String × CacheEntry)

/-- purgeCache: delete every entry whose expiry time is below the current
clock. -/
def purgeCache (now : Int) (st : CacheStore) : CacheStore :=
  List.filter (fun e => !decide (e.2.time < now)) st

/-- addToCache: purge, then store the serialized projection of the response
under the hash with expiry now plus the requested duration. -/
def addToCache (hash : String) (time : Int) (r : Response) (now : Int)
    (st : CacheStore) : CacheStore :=
  assocSet (purgeCache now st) hash { data := project r, time := now + time }

/-- fromCache: purge, then rebuild a response from the stored snapshot, or
return nothing when the hash is absent.  (The purged table is the store the
process keeps afterwards; lookups never modify the surviving entries.) -/
def fromCache (hash : String) (now : Int) (st : CacheStore) : Option Response :=
  match assocGet (purgeCache now st) hash with
  | some e => some (reconstruct e.data)
  | none => none

/-- Helper: reading a freshly written key back through fromCache yields the
reconstructed snapshot exactly when the entry is not yet expired. -/
theorem fromCache_assocSet (st : CacheStore) (k : String) (e : CacheEntry) (now : Int) :
    fromCache k now (assocSet st k e)
      = if e.time < now then none else some (reconstruct e.data) := by
  unfold fromCache purgeCache
  rw [assocGet_filter_set (fun a => !decide (a.time < now)) st k e]
  by_cases h : e.time < now <;> simp [h]

/-! ## Outcome classification (src/index.js lines 244-248) -/

/-- isOk: a request finished successfully when its status code is 2XX or
304.  A missing response or a missing/zero status code coerces to 0. -/
def isOk (r : Option Response) : Bool :=
  let code := match r with
    | some resp => resp.statusCode.getD 0
    | none => 0
  (decide (200 ≤ code) && decide (code < 300)) || decide (code = 304)

/-! ## Body decoding at end of stream (src/index.js lines 179-205) -/

/-- The test of the literal regular expression over content types: a plus
sign or slash, then the four letters json, then a semicolon or the end of
the string. -/
def jsonAfter (l : List Char) : Bool :=
  match l with
  | 'j' :: 's' :: 'o' :: 'n' :: rest =>
    match rest with
    | [] => true
    | c :: _ => c == ';'
  | _ => false

def hasJsonToken : List Char → Bool
  | [] => false
  | c :: rest => ((c == '+' || c == '/') && jsonAfter rest) || hasJsonToken rest

def matchesJsonCT (s : String) : Bool := hasJsonToken s.data

/-- The body computation of the stream end handler: when the Content-Type is
in the JSON family, parse the buffered text with the platform JSON.parse
(passed as a parameter) and fall back to an empty object when the parse
throws; otherwise keep the raw buffer.  A missing header is coerced by the
regular expression test to the string rendering of undefined. -/
def decodeBody (parse : String → Option JsVal) (contentType : Option String)
    (buffered : String) : JsVal :=
  if matchesJsonCT (contentType.getD "undefined") then
    match parse buffered with
    | some v => v
    | none => .obj []
  else .str buffered

/-- The end handler attaches the decoded body onto the response. -/
def handleResponseEnd (parse : String → Option JsVal) (resp : Response)
    (buffered : String) : Response :=
  { resp with body := decodeBody parse (hGet resp.headers "Content-Type") buffered }

/-- How a finished attempt reaches the two-branch continuation of doRequest:
ok carries a response, err carries a transport error. -/
inductive Delivered where
  | ok (r : Response)
  | err (e : String)

/-- The end-of-stream event always feeds the success continuation; the error
continuation is wired only to transport errors of the request object. -/
def endOfStream (parse : String → Option JsVal) (resp : Response)
    (buffered : String) : Delivered :=
  .ok (handleResponseEnd parse resp buffered)

/-! ## doRequest (src/index.js lines 154-216) -/

/-- The effective cache duration: the cacheTime option when the field is
present, the process-wide default otherwise. -/
def effectiveCacheTime (defCT : Int) (o : Options) : Int :=
  match o.cacheTime with
  | some t => t
  | none => defCT

/-- What doRequest decides to do before any asynchronous work: either the
success continuation fires at once with a cached response and no network
request is opened, or exactly one network request is opened (recording the
hash under which the eventual response will be cached, whether the https
transport was selected, and whether a body will be written). -/
inductive RequestPlan where
  | cacheHit (r : Response)
  | network (hash : Option String) (useHttps : Bool) (writesBody : Bool)

/-- doRequest: compute the effective cache duration; when it is truthy,
hash the JSON serialization of the options and consult the cache; a hit
short-circuits to the success continuation, anything else opens a request
over the transport chosen by the protocol option. -/
def doRequest (defCT : Int) (store : CacheStore) (now : Int) (o : Options) :
    RequestPlan :=
  let ct := effectiveCacheTime defCT o
  let hash : Option String :=
    if ct ≠ 0 then some (buildHash (jsonStringify o)) else none
  let cached : Option Response :=
    match hash with
    | some h => fromCache h now store
    | none => none
  match cached with
  | some r => .cacheHit r
  | none => .network hash (decide (o.protocol = some "https:")) o.body.isSome

/-! ## Heap-level cache model (for the aliasing behaviour of the cache)

The pure model above works with response values.  To reason about mutation
of live JavaScript objects, this refined model gives objects identities: a
heap maps references to objects (string-keyed property maps whose values are
primitives or further references), and the cache rows store a reference to
the serialized-copy object.  addToCache and fromCache are re-expressed over
the heap exactly as the source writes them: the insert allocates a fresh
object holding a copy of the listed properties, and the lookup allocates a
fresh message object and copies the stored properties onto it. -/

/-- A JavaScript property value at heap level: the undefined read of a
missing property, an immutable primitive/structured value, or a reference to
a heap object. -/
inductive HVal where
  | undefined
  | prim (v : JsVal)
  | ref (r : Nat)

abbrev ObjFields : Type := List (String × HVal)

structure Heap where
  objs : List (Nat × ObjFields)
  next : Nat

/-- Allocate a fresh object and return its reference. -/
def allocObj (h : Heap) (fs : ObjFields) : Heap × Nat :=
  ({ objs := (h.next, fs) :: h.objs, next := h.next + 1 }, h.next)

def getObj (h : Heap) (r : Nat) : ObjFields :=
  (assocGet h.objs r).getD []

/-- Property read: a missing property reads as undefined. -/
def getProp (h : Heap) (r : Nat) (name : String) : HVal :=
  (assocGet (getObj h r) name).getD .undefined

/-- Property write on the object behind a reference (the JavaScript
assignment obj[name] = v). -/
def setProp (h : Heap) (r : Nat) (name : String) (v : HVal) : Heap :=
  { h with objs := h.objs.map (fun p => if p.1 = r then (p.1, assocSet p.2 name v) else p) }

structure CacheRow where
  dataRef : Nat
  time : Int

abbrev CacheTable : Type := List (String × CacheRow)

def purgeTable (now : Int) (c : CacheTable) : CacheTable :=
  List.filter (fun e => !decide (e.2.time < now)) c

/-- addToCache over the heap: purge, copy the listed properties of the
response object into a freshly allocated serialization object, and store
its reference with the expiry time. -/
def addToCacheHeap (heap : Heap) (c : CacheTable) (now : Int) (hash : String)
    (time : Int) (respRef : Nat) : Heap × CacheTable :=
  let c1 := purgeTable now c
  let fs : ObjFields := properties.map (fun n => (n, getProp heap respRef n))
  let al := allocObj heap fs
  (al.1, assocSet c1 hash { dataRef := al.2, time := now + time })

/-- fromCache over the heap: purge, and on a hit allocate a fresh message
object carrying a copy of the stored properties, returning its reference. -/
def fromCacheHeap (heap : Heap) (c : CacheTable) (now : Int) (hash : String) :
    Heap × CacheTable × Option Nat :=
  let c1 := purgeTable now c
  match assocGet c1 hash with
  | some e =>
    let fs : ObjFields := properties.map (fun n => (n, getProp heap e.dataRef n))
    let al := allocObj heap fs
    (al.1, c1, some al.2)
  | none => (heap, c1, none)

theorem getObj_allocObj_self (h : Heap) (fs : ObjFields) :
    getObj (allocObj h fs).1 (allocObj h fs).2 = fs := by
  simp [getObj, allocObj, assocGet, List.find?]

theorem getObj_allocObj_ne (h : Heap) (fs : ObjFields) (r : Nat) (hne : r ≠ h.next) :
    getObj (allocObj h fs).1 r = getObj h r := by
  unfold getObj allocObj assocGet
  rw [List.find?_cons_of_neg _ (by simp; exact fun hc => hne hc.symm)]

theorem find?_map_keyUpd (l : List (Nat × ObjFields)) (r rm : Nat)
    (g : ObjFields → ObjFields) (hne : r ≠ rm) :
    (l.map (fun p => if p.1 = rm then (p.1, g p.2) else p)).find?
        (fun p => decide (p.1 = r))
      = l.find? (fun p => decide (p.1 = r)) := by
  induction l with
  | nil => rfl
  | cons p l ih =>
    by_cases hr : p.1 = r
    · have hpm : ¬ p.1 = rm := by rw [hr]; exact hne
      simp only [List.map_cons, hpm, if_false]
      rw [List.find?_cons_of_pos _ (by simp [hr]),
        List.find?_cons_of_pos _ (by simp [hr])]
    · by_cases hpm : p.1 = rm
      · simp only [List.map_cons, hpm, if_true]
        rw [List.find?_cons_of_neg _ (by simp [hpm, hne.symm]),
          List.find?_cons_of_neg _ (by simp [hr])]
        exact ih
      · simp only [List.map_cons, hpm, if_false]
        rw [List.find?_cons_of_neg _ (by simp [hr]),
          List.find?_cons_of_neg _ (by simp [hr])]
        exact ih

theorem getObj_setProp_ne (h : Heap) (r rm : Nat) (name : String) (v : HVal)
    (hne : r ≠ rm) :
    getObj (setProp h rm name v) r = getObj h r := by
  unfold getObj setProp assocGet
  rw [find?_map_keyUpd h.objs r rm (fun fs => assocSet fs name v) hne]

theorem setProp_next (h : Heap) (r : Nat) (name : String) (v : HVal) :
    (setProp h r name v).next = h.next := rfl

theorem allocObj_next (h : Heap) (fs : ObjFields) :
    (allocObj h fs).1.next = h.next + 1 := rfl

/-- Reading a projected property out of a projection copy gives the value
the source object had when the copy was made. -/
theorem assocGet_projection (heap : Heap) (r : Nat) (p : String)
    (hp : p ∈ properties) :
    (assocGet (properties.map (fun n => (n, getProp heap r n))) p).getD .undefined
      = getProp heap r p := by
  rw [assocGet_map_const_fn properties (fun n => getProp heap r n) p hp]
  rfl

/-! ## Claims -/

/-- Claim C1: the outcome classifier returns Ok exactly when the status code
c satisfies 200 at most c below 300 or c equal 304, and Fail for every other
value, including an absent response or an absent or zero status code. -/
theorem classify_ok_iff (r : Option Response) :
    isOk r = true ↔
      ∃ resp c, r = some resp ∧ resp.statusCode = some c ∧
        ((200 ≤ c ∧ c < 300) ∨ c = 304) := by
  cases r with
  | none => simp [isOk]
  | some resp =>
    cases hc : resp.statusCode with
    | none => simp [isOk, hc]
    | some c => simp [isOk, hc]

/-- Claim C9: purging the cache twice in a row (no intervening insert, same
clock reading) leaves exactly the contents of a single purge. -/
theorem purge_idempotent (now : Int) (st : CacheStore) :
    purgeCache now (purgeCache now st) = purgeCache now st := by
  simp [purgeCache, List.filter_filter]

/-- Claim C5: inserting a response under hash h with positive duration t at
clock n0, a lookup at clock n1 within the window returns a snapshot whose
projected fields all equal those of the original, and a lookup after the
window has elapsed returns nothing. -/
theorem cache_round_trip (st : CacheStore) (h : String) (t n0 n1 : Int)
    (r : Response) (_ht : 0 < t) :
    (n1 ≤ n0 + t →
      (fromCache h n1 (addToCache h t r n0 st)).map project = some (project r)) ∧
    (n0 + t < n1 → fromCache h n1 (addToCache h t r n0 st) = none) := by
  constructor
  · intro hle
    unfold addToCache
    rw [fromCache_assocSet, if_neg (by simp; omega)]
    rfl
  · intro hlt
    unfold addToCache
    rw [fromCache_assocSet, if_pos (by simp; omega)]

def sampleResponse : Response :=
  { body := .null, headers := [("content-type", "application/json")],
    httpVersion := some "1.1", httpVersionMajor := some 1,
    httpVersionMinor := some 1, method := none, rawHeaders := [],
    rawTrailers := [], statusCode := some 200, statusMessage := some "OK",
    trailers := [], url := none, extra := [] }

theorem cache_round_trip_witness :
    (0 : Int) < 10 ∧
    (fromCache "k" 5 (addToCache "k" 10 sampleResponse 0 ([] : CacheStore))).map project
        = some (project sampleResponse) ∧
    fromCache "k" 20 (addToCache "k" 10 sampleResponse 0 ([] : CacheStore)) = none :=
  ⟨by decide,
   (cache_round_trip ([] : CacheStore) "k" 10 0 5 sampleResponse (by decide)).1 (by decide),
   (cache_round_trip ([] : CacheStore) "k" 10 0 20 sampleResponse (by decide)).2 (by decide)⟩

/-- Claim C3 (amended): when a headers field is present with no explicit
headers set and the body is a structured object, normalization produces
headers carrying Content-Type application/json with utf-8 charset and Accept
application/json.  (The header-defaulting step only runs when a headers
field is present; see the counterexample below.) -/
theorem header_inference_empty_headers (o : Options) (bs : List (String × JsVal))
    (hh : o.headers = some []) (hb : o.body = some (.obj bs)) :
    ∃ hs, (checkHeaders o).headers = some hs ∧
      hGet hs "Content-Type" = some "application/json; charset=utf-8" ∧
      hGet hs "Accept" = some "application/json" := by
  obtain ⟨url, pathname, path, host, hostname, protocol, port, auth, search,
    query, href, hash, slashes, method, headers, body, cacheTime, requestType⟩ := o
  simp only at hh hb
  subst hh; subst hb
  exact ⟨[("Content-Type", "application/json; charset=utf-8"),
          ("Accept", "application/json")], rfl, by decide, by decide⟩

/-- Claim C3, counterexample to the claim as stated: a request whose body is
a structured object but that carries no headers field at all also has no
explicit headers set, yet normalization adds no headers whatsoever — the
header-defaulting step is guarded by the presence of the headers field. -/
def c3opts : Options := { hostname := some "h", body := some (.obj []) }

theorem header_inference_requires_headers_field :
    c3opts.body = some (.obj []) ∧ c3opts.headers = none ∧
      (checkHeaders c3opts).headers = none :=
  ⟨rfl, rfl, rfl⟩

def c3optsAmended : Options :=
  { hostname := some "h", headers := some [], body := some (.obj []) }

theorem header_inference_empty_headers_witness :
    c3optsAmended.headers = some [] ∧ c3optsAmended.body = some (.obj []) ∧
    (∃ hs, (checkHeaders c3optsAmended).headers = some hs ∧
      hGet hs "Content-Type" = some "application/json; charset=utf-8" ∧
      hGet hs "Accept" = some "application/json") :=
  ⟨rfl, rfl, header_inference_empty_headers c3optsAmended [] rfl rfl⟩

/-- Claim C4 (amended): for options whose url field is a string, a non-empty
explicit pathname override becomes the resulting path exactly; otherwise
(pathname absent or empty, hence falsy) a non-empty query string on the
parsed URL makes the resulting path the parsed URL's path followed by a
question mark and the query string; and in all cases the url field is
removed afterward. -/
theorem url_resolution (parse : String → ParsedUrl) (o : Options) (s : String)
    (hu : o.url = some s) :
    (∀ p, o.pathname = some p → p ≠ "" → (resolveUrl parse o).path = some p) ∧
    ((o.pathname = none ∨ o.pathname = some "") →
      ∀ q pp, (parse s).query = some q → q ≠ "" → (parse s).path = some pp →
        (resolveUrl parse o).path = some (pp ++ "?" ++ q)) ∧
    (resolveUrl parse o).url = none := by
  refine ⟨?_, ?_, ?_⟩
  · intro p hp hpne
    have htp : truthyOpt (some p) = true := by simp [truthyOpt, hpne]
    simp [resolveUrl, hu, hp, htp]
  · intro hpn q pp hq hqne hpp
    have htr : truthyOpt o.pathname = false := by
      rcases hpn with h | h <;> simp [truthyOpt, h]
    have htq : truthyOpt (some q) = true := by simp [truthyOpt, hqne]
    simp [resolveUrl, hu, htr, hq, htq, hpp]
  · simp only [resolveUrl, hu]

/-- Claim C4, counterexample to the claim as stated: an explicit pathname
field supplied as the empty string is falsy, so checkUrl ignores it and
takes the query branch instead of making the path equal the supplied
pathname. -/
def c4parse : String → ParsedUrl := fun _ =>
  { protocol := some "http:", slashes := some true, host := some "h",
    hostname := some "h", search := some "?b=1", query := some "b=1",
    pathname := some "/a", path := some "/a?b=1", href := some "http://h/a?b=1" }

def c4opts : Options := { url := some "http://h/a?b=1", pathname := some "" }

theorem url_resolution_empty_pathname :
    c4opts.url = some "http://h/a?b=1" ∧ c4opts.pathname = some "" ∧
    (resolveUrl c4parse c4opts).path = some "/a?b=1?b=1" ∧
    (resolveUrl c4parse c4opts).path ≠ some "" :=
  ⟨rfl, rfl, by decide, by decide⟩

def c4optsAmended : Options := { url := some "http://h/a", pathname := some "/p" }

theorem url_resolution_witness :
    c4optsAmended.url = some "http://h/a" ∧ c4optsAmended.pathname = some "/p" ∧
    (resolveUrl c4parse c4optsAmended).path = some "/p" ∧
    (resolveUrl c4parse c4opts).url = none :=
  ⟨rfl, rfl,
   (url_resolution c4parse c4optsAmended "http://h/a" rfl).1 "/p" rfl (by decide),
   (url_resolution c4parse c4opts "http://h/a?b=1" rfl).2.2⟩

/-- A concrete legacy-parse result used to exercise the entry point on the
address used in the repository examples. -/
def exampleParse : String → ParsedUrl := fun _ =>
  { protocol := some "http:", slashes := some true, host := some "example.com",
    hostname := some "example.com", pathname := some "/", path := some "/",
    href := some "http://example.com/" }

/-- Claim C2: contrary to the claim, an options record whose requestType is
the string promise is dispatched to event mode: the entry point returns an
event emitter, not a deferred value.  Only a function value can reach
promise mode, because the dispatch first requires typeof to be function.
The repository's own README and test suite use the string form and expect a
then/catch surface on the result. -/
def c2opts : Options :=
  { url := some "http://example.com/", requestType := some (.str "promise") }

theorem promise_string_dispatches_to_events :
    selectMode (some (.str "promise")) = .events ∧
    ∃ o, jfHttpRequest exampleParse (some (.opts c2opts)) = .ok (o, .events) :=
  ⟨rfl, ⟨_, rfl⟩⟩

/-- Claim C8: with no options at all the entry point fails synchronously
with the Wrong options TypeError, and with options leaving no truthy
hostname after url resolution and host aliasing it fails synchronously with
the Wrong hostname TypeError; in both situations no delivery mode is ever
engaged — the failure is the entry point's own, not a callback, event or
promise delivery. -/
theorem config_error_synchronous (parse : String → ParsedUrl) (o : Options)
    (hhn : truthyOpt (applyHostAlias (resolveUrl parse o)).hostname = false) :
    jfHttpRequest parse none = .error .wrongOptions ∧
    jfHttpRequest parse (some (.opts o)) = .error .wrongHostname ∧
    (∀ o2 m, jfHttpRequest parse none ≠ .ok (o2, m) ∧
      jfHttpRequest parse (some (.opts o)) ≠ .ok (o2, m)) := by
  have hmain : jfHttpRequest parse (some (.opts o)) = .error .wrongHostname := by
    simp [jfHttpRequest, entryPipeline, checkUrl, hhn]
  refine ⟨rfl, hmain, ?_⟩
  intro o2 m
  constructor
  · simp [jfHttpRequest]
  · simp [hmain]

theorem config_error_synchronous_witness :
    truthyOpt (applyHostAlias (resolveUrl exampleParse {})).hostname = false ∧
    jfHttpRequest exampleParse none = .error .wrongOptions ∧
    jfHttpRequest exampleParse (some (.opts {})) = .error .wrongHostname :=
  ⟨rfl, (config_error_synchronous exampleParse {} rfl).1,
   (config_error_synchronous exampleParse {} rfl).2.1⟩

/-- Claim C6: the effective cache duration is the cacheTime option when that
field is present and the process-wide default otherwise; whenever the
effective duration is nonzero the cache key is the SHA-256 hash of the JSON
serialization of the options, and a hit at that key makes doRequest fire
the success continuation with the cached snapshot without opening any
network request, while a miss opens the network request recording that same
key. -/
theorem cache_consultation (defCT : Int) (store : CacheStore) (now : Int)
    (o : Options) :
    (∀ t, o.cacheTime = some t → effectiveCacheTime defCT o = t) ∧
    (o.cacheTime = none → effectiveCacheTime defCT o = defCT) ∧
    (effectiveCacheTime defCT o ≠ 0 →
      (∀ r, fromCache (buildHash (jsonStringify o)) now store = some r →
        doRequest defCT store now o = .cacheHit r) ∧
      (fromCache (buildHash (jsonStringify o)) now store = none →
        doRequest defCT store now o
          = .network (some (buildHash (jsonStringify o)))
              (decide (o.protocol = some "https:")) o.body.isSome)) := by
  refine ⟨?_, ?_, ?_⟩
  · intro t ht
    simp [effectiveCacheTime, ht]
  · intro h
    simp [effectiveCacheTime, h]
  · intro hct
    constructor
    · intro r hr
      simp [doRequest, hct, hr]
    · intro hr
      simp [doRequest, hct, hr]

def c6opts : Options := { hostname := some "h", cacheTime := some 5 }

def c6store : CacheStore :=
  assocSet ([] : CacheStore) (buildHash (jsonStringify c6opts))
    { data := project sampleResponse, time := 10 }

theorem cache_consultation_witness :
    c6opts.cacheTime = some 5 ∧
    effectiveCacheTime 0 c6opts ≠ 0 ∧
    doRequest 0 c6store 0 c6opts = .cacheHit (reconstruct (project sampleResponse)) := by
  have hfc : fromCache (buildHash (jsonStringify c6opts)) 0 c6store
      = some (reconstruct (project sampleResponse)) := by
    unfold c6store
    rw [fromCache_assocSet, if_neg (by decide)]
  exact ⟨rfl, by decide,
    ((cache_consultation 0 c6store 0 c6opts).2.2 (by decide)).1 _ hfc⟩

/-- Claim C7: for a response whose Content-Type matches the JSON-family
pattern, the end handler attaches the parsed buffer as the body; when the
parse fails the body becomes an empty structured object, and in either case
only the success continuation is reached — no error channel carries the
parse failure. -/
theorem json_decode_recovery (parse : String → Option JsVal) (resp : Response)
    (buf : String)
    (hct : matchesJsonCT ((hGet resp.headers "Content-Type").getD "undefined") = true) :
    (∀ v, parse buf = some v → (handleResponseEnd parse resp buf).body = v) ∧
    (parse buf = none → (handleResponseEnd parse resp buf).body = .obj []) ∧
    (∀ e, endOfStream parse resp buf ≠ .err e) := by
  refine ⟨?_, ?_, ?_⟩
  · intro v hv
    simp [handleResponseEnd, decodeBody, hct, hv]
  · intro hv
    simp [handleResponseEnd, decodeBody, hct, hv]
  · intro e h
    simp [endOfStream] at h

/-- A tiny stand-in for the platform JSON.parse, accepting just the buffer
used by the witness. -/
def c7parse : String → Option JsVal := fun s =>
  if s == "1" then some (.num 1) else none

theorem json_decode_recovery_witness :
    matchesJsonCT ((hGet sampleResponse.headers "Content-Type").getD "undefined") = true ∧
    (handleResponseEnd c7parse sampleResponse "1").body = .num 1 ∧
    (handleResponseEnd c7parse sampleResponse "nope").body = .obj [] :=
  ⟨by decide,
   (json_decode_recovery c7parse sampleResponse "1" (by decide)).1 _ rfl,
   (json_decode_recovery c7parse sampleResponse "nope" (by decide)).2.1 rfl⟩

/-- A cache-table hit: when the purged table still carries the hash, the
heap-level lookup allocates a fresh copy of the stored object and returns
its reference. -/
theorem fromCacheHeap_hit (heap : Heap) (c : CacheTable) (now : Int) (hash : String)
    (row : CacheRow) (hrow : assocGet (purgeTable now c) hash = some row) :
    fromCacheHeap heap c now hash
      = ((allocObj heap (properties.map (fun n => (n, getProp heap row.dataRef n)))).1,
         purgeTable now c, some heap.next) := by
  simp only [fromCacheHeap]
  rw [hrow]
  rfl

/-- Unfold a property read through a known object value. -/
theorem getProp_eq_of_getObj (h : Heap) (r : Nat) (fs : ObjFields)
    (hg : getObj h r = fs) (p : String) :
    getProp h r p = (assocGet fs p).getD .undefined := by
  unfold getProp
  rw [hg]

/-- Reading a projected property off a freshly allocated projection copy
gives the source object's value at copy time. -/
theorem getProp_fresh_copy (h : Heap) (src : Nat) (p : String) (hp : p ∈ properties) :
    getProp (allocObj h (properties.map (fun n => (n, getProp h src n)))).1
        (allocObj h (properties.map (fun n => (n, getProp h src n)))).2 p
      = getProp h src p := by
  unfold getProp
  rw [getObj_allocObj_self]
  exact assocGet_projection h src p hp

/-- Two lookups of the same hash with a mutation of the first result in
between: both lookups succeed and the second result's projected fields are
exactly the stored field list. -/
theorem lookup_twice_fresh (h2 : Heap) (X : CacheTable) (now : Int) (hash : String)
    (row : CacheRow) (fs0 : ObjFields)
    (hrow1 : assocGet (purgeTable now X) hash = some row)
    (hg2 : getObj h2 row.dataRef = fs0)
    (hlt : row.dataRef < h2.next) :
    ∃ h3 c3 r1, fromCacheHeap h2 X now hash = (h3, c3, some r1) ∧
      ∀ name2 v2, ∃ h5 c5 r2,
        fromCacheHeap (setProp h3 r1 name2 v2) c3 now hash = (h5, c5, some r2) ∧
        ∀ p, p ∈ properties → getProp h5 r2 p = (assocGet fs0 p).getD .undefined := by
  have hl1 := fromCacheHeap_hit h2 X now hash row hrow1
  refine ⟨_, _, _, hl1, ?_⟩
  intro name2 v2
  have hpp : purgeTable now (purgeTable now X) = purgeTable now X := by
    simp [purgeTable, List.filter_filter]
  have hrow2 : assocGet (purgeTable now (purgeTable now X)) hash = some row := by
    rw [hpp]
    exact hrow1
  have hl2 := fromCacheHeap_hit
    (setProp (allocObj h2 (properties.map (fun n => (n, getProp h2 row.dataRef n)))).1
      h2.next name2 v2)
    (purgeTable now X) now hash row hrow2
  refine ⟨_, _, _, hl2, ?_⟩
  intro p hp
  have hg4 : getObj (setProp (allocObj h2
        (properties.map (fun n => (n, getProp h2 row.dataRef n)))).1 h2.next name2 v2)
      row.dataRef = fs0 := by
    rw [getObj_setProp_ne _ _ _ _ _ (Nat.ne_of_lt hlt)]
    rw [getObj_allocObj_ne _ _ _ (Nat.ne_of_lt hlt)]
    exact hg2
  exact (getProp_fresh_copy _ row.dataRef p hp).trans
    (getProp_eq_of_getObj _ _ _ hg4 p)

/-- Claim C10: insertion stores a projection copy restricted to the fixed
property list, and every lookup reconstructs a fresh object from the stored
data.  Mutating the original response object after the insert (any property
name, any value) leaves the stored snapshot's fields exactly the projection
taken at insert time, and mutating the object returned by a lookup does not
change what a later lookup of the same hash returns: its projected fields
still equal the original projection. -/
theorem cache_copy_semantics (heap : Heap) (c : CacheTable) (now : Int)
    (hash : String) (t : Int) (respRef : Nat) (name : String) (v : HVal)
    (href : respRef < heap.next) (ht : 0 < t) :
    (∃ row, assocGet (addToCacheHeap heap c now hash t respRef).2 hash = some row ∧
      getObj (setProp (addToCacheHeap heap c now hash t respRef).1 respRef name v)
          row.dataRef
        = properties.map (fun n => (n, getProp heap respRef n))) ∧
    (∃ h3 c3 r1,
      fromCacheHeap (setProp (addToCacheHeap heap c now hash t respRef).1 respRef name v)
          (addToCacheHeap heap c now hash t respRef).2 now hash = (h3, c3, some r1) ∧
      ∀ name2 v2, ∃ h5 c5 r2,
        fromCacheHeap (setProp h3 r1 name2 v2) c3 now hash = (h5, c5, some r2) ∧
        ∀ p, p ∈ properties → getProp h5 r2 p = getProp heap respRef p) := by
  have hne1 : heap.next ≠ respRef := (Nat.ne_of_lt href).symm
  have hins1 : (addToCacheHeap heap c now hash t respRef).1
      = (allocObj heap (properties.map (fun n => (n, getProp heap respRef n)))).1 := rfl
  have hins2 : (addToCacheHeap heap c now hash t respRef).2
      = assocSet (purgeTable now c) hash ⟨heap.next, now + t⟩ := rfl
  have hrow0 : assocGet (assocSet (purgeTable now c) hash
      (⟨heap.next, now + t⟩ : CacheRow)) hash = some ⟨heap.next, now + t⟩ :=
    assocGet_set _ _ _
  have hg2 : getObj (setProp (allocObj heap
        (properties.map (fun n => (n, getProp heap respRef n)))).1 respRef name v)
      heap.next = properties.map (fun n => (n, getProp heap respRef n)) := by
    rw [getObj_setProp_ne _ _ _ _ _ hne1]
    exact getObj_allocObj_self _ _
  constructor
  · exact ⟨⟨heap.next, now + t⟩, by rw [hins2]; exact hrow0, by rw [hins1]; exact hg2⟩
  · have hrow1 : assocGet (purgeTable now (assocSet (purgeTable now c) hash
        (⟨heap.next, now + t⟩ : CacheRow))) hash = some ⟨heap.next, now + t⟩ := by
      have h := assocGet_filter_set (fun a => !decide (a.time < now)) (purgeTable now c)
        hash (⟨heap.next, now + t⟩ : CacheRow)
      rw [if_pos (by simp; omega)] at h
      exact h
    rw [hins1, hins2]
    obtain ⟨h3, c3, r1, hfc, hrest⟩ := lookup_twice_fresh
      (setProp (allocObj heap
        (properties.map (fun n => (n, getProp heap respRef n)))).1 respRef name v)
      (assocSet (purgeTable now c) hash ⟨heap.next, now + t⟩) now hash
      ⟨heap.next, now + t⟩
      (properties.map (fun n => (n, getProp heap respRef n)))
      hrow1 hg2 (Nat.lt.base heap.next)
    refine ⟨h3, c3, r1, hfc, ?_⟩
    intro name2 v2
    obtain ⟨h5, c5, r2, hfc2, hvals⟩ := hrest name2 v2
    refine ⟨h5, c5, r2, hfc2, ?_⟩
    intro p hp
    rw [hvals p hp]
    exact assocGet_projection heap respRef p hp

def c10heap : Heap :=
  { objs := [(0, [("statusCode", HVal.prim (.num 200))])], next := 1 }

theorem cache_copy_semantics_witness :
    (0 : Nat) < 1 ∧ (0 : Int) < 5 ∧
    (∃ row, assocGet (addToCacheHeap c10heap [] 0 "k" 5 0).2 "k" = some row ∧
      getObj (setProp (addToCacheHeap c10heap [] 0 "k" 5 0).1 0 "statusCode"
          (HVal.prim (.num 500))) row.dataRef
        = properties.map (fun n => (n, getProp c10heap 0 n))) :=
  ⟨by decide, by decide,
   (cache_copy_semantics c10heap [] 0 "k" 5 0 "statusCode" (HVal.prim (.num 500))
     (by decide) (by decide)).1⟩
